import Mathlib

set_option autoImplicit false

/-!
Verification of the cosmo document-database access layer.

This file gives a shallow embedding of the parts of the repository that the
checked properties talk about:

* the `update` package: `Selector`, the update builder `Build` with its
  `parseMap` / `parseStruct` front ends and the `filterSetOnInsert`
  post-processing step (src/update/selector.go, src/update/build.go,
  src/update/update.go);
* the `clause` package: `Query`, `Filter`, `Query.Build`, `Multiple` and the
  SQL-like string condition parser (src/clause/query.go, src/clause/filter.go,
  src/clause/build.go, src/clause/funcs.go, src/clause/where.go);
* the pool manager: the guarded `Execute` control flow and the exponential
  backoff formula of `tryRecover` (src/health.go, src/unnamed/part_015);
* the command layer: the empty-filter validation in `cmdUpdate` / `cmdDelete`
  (src/command.go).

Go maps are embedded as association lists; in-place mutation of shared inner
maps (the aliasing that `Filter.Merge` + `Filter.Any` produce) is embedded by
explicit state passing that records which rendered entries alias the entries
of the pre-merged filter.
-/

namespace Cosmo

/-- A BSON-like dynamic value: the value universe that filter and update
documents range over. `vDoc` plays the role of the Go `bson.M` / `map[string]any`
map types, `vArr` the role of slices, `vNull` the role of a nil interface. -/
inductive BVal where
  | vNull : BVal
  | vInt : Int → BVal
  | vStr : String → BVal
  | vBool : Bool → BVal
  | vArr : List BVal → BVal
  | vDoc : List (String × BVal) → BVal

/-- A document: an association list from keys to values, standing for a Go
map whose iteration order we fix as insertion order. -/
abbrev Doc := List (String × BVal)

/-- Association list read: the value stored at key `k`. -/
def docGet (d : Doc) (k : String) : Option BVal :=
  match d with
  | [] => none
  | (k', v) :: rest => if k' = k then some v else docGet rest k

/-- Association list write: replace the value at key `k`, or append the pair
when `k` is absent (Go map assignment). -/
def docSet (d : Doc) (k : String) (v : BVal) : Doc :=
  match d with
  | [] => [(k, v)]
  | (k', v') :: rest => if k' = k then (k', v) :: rest else (k', v') :: docSet rest k v

/-- Association list delete (Go `delete(m, k)`). -/
def docDel (d : Doc) (k : String) : Doc :=
  match d with
  | [] => []
  | (k', v') :: rest => if k' = k then docDel rest k else (k', v') :: docDel rest k

/-- Whether key `k` is present. -/
def docHas (d : Doc) (k : String) : Bool :=
  (docGet d k).isSome

/-- Whether a value is a Go map value (`map[string]any` or `bson.M`). -/
def BVal.isDoc : BVal → Bool
  | .vDoc _ => true
  | _ => false

/-- Go strings.HasPrefix, on the character lists so that proofs can evaluate
it. -/
def goStartsWith (s pfx : String) : Bool :=
  pfx.toList.isPrefixOf s.toList

/-- Go strings.HasSuffix. -/
def goEndsWith (s sfx : String) : Bool :=
  sfx.toList.reverse.isPrefixOf s.toList.reverse

/-- Worker of goSplit: scan the remaining characters, cutting at each
occurrence of the separator. `cur` is the piece under construction,
reversed. The fuel argument only drives structural recursion; each step
consumes at least one character, so fuel = length never runs out. -/
def goSplitList (sep : List Char) : Nat → List Char → List Char → List (List Char)
  | _, [], cur => [cur.reverse]
  | 0, l, cur => [cur.reverse ++ l]
  | fuel + 1, c :: rest, cur =>
    if sep.isPrefixOf (c :: rest) then
      cur.reverse :: goSplitList sep fuel (rest.drop (sep.length - 1)) []
    else goSplitList sep fuel rest (c :: cur)

/-- Go strings.Split for a non-empty separator. -/
def goSplit (s sep : String) : List String :=
  if sep.isEmpty then [s]
  else (goSplitList sep.toList s.toList.length s.toList []).map String.mk

end Cosmo

namespace Cosmo.update

/-- SelectorType from src/update/selector.go: none / omit / select. -/
inductive SelectorType where
  | stNone
  | stOmit
  | stSelect
  deriving Repr, DecidableEq

/-- The Selector of src/update/selector.go and src/unnamed/part_024.
`projection` embeds the Go `map[string]int` / `map[string]bool` field map:
`none` is the nil map, `some keys` a non-nil map with the given key set
(the stored int/bool values are never read, only key membership is). -/
structure Selector where
  selector : SelectorType
  projection : Option (List String)
  deriving Repr, DecidableEq

/-- Insert a key into the key set of a map (Go `m[k] = v`). -/
def insertKey (ks : List String) (k : String) : List String :=
  if k ∈ ks then ks else ks ++ [k]

/-- Selector.Select (src/update/selector.go lines 34-46): returns false and
changes nothing when the selector is in omit mode; otherwise switches a fresh
selector into select mode with an empty (non-nil) map and accumulates the
given columns. -/
def Selector.Select (s : Selector) (columns : List String) : Bool × Selector :=
  match s.selector with
  | .stOmit => (false, s)
  | mode =>
    let s := if mode = .stNone then { selector := .stSelect, projection := some [] } else s
    let proj := columns.foldl insertKey (s.projection.getD [])
    (true, { s with projection := some proj })

/-- Selector.Omit (src/update/selector.go lines 49-61): symmetric to Select. -/
def Selector.Omit (s : Selector) (columns : List String) : Bool × Selector :=
  match s.selector with
  | .stSelect => (false, s)
  | mode =>
    let s := if mode = .stNone then { selector := .stOmit, projection := some [] } else s
    let proj := columns.foldl insertKey (s.projection.getD [])
    (true, { s with projection := some proj })

/-- Selector.Release (src/update/selector.go lines 28-31): reset to none/nil. -/
def Selector.Release (_ : Selector) : Selector :=
  { selector := .stNone, projection := none }

/-- Selector.Is (src/update/selector.go lines 17-27): with an empty or nil
projection map the default only-non-zero rule applies; otherwise key
membership decides, positively in select mode and negatively otherwise. -/
def Selector.Is (s : Selector) (key : String) (isZero : Bool) : Bool :=
  if (s.projection.getD []).length = 0 then !isZero
  else
    let ok := key ∈ (s.projection.getD [])
    if s.selector = .stSelect then ok else !ok

/-- Selector.Has (src/unnamed/part_024 lines 27-37): with a nil projection map
every key is admitted; otherwise key membership decides, negatively in omit
mode and positively otherwise. -/
def Selector.Has (s : Selector) (key : String) : Bool :=
  match s.projection with
  | none => true
  | some ks =>
    let ok := key ∈ ks
    if s.selector = .stOmit then !ok else ok

/-- The fresh selector (Go zero value). -/
def Selector.empty : Selector := { selector := .stNone, projection := none }

end Cosmo.update

namespace Cosmo.update
open Cosmo

/-- The Update document of src/update/update.go: a map from operator name
to a field-to-value sub-document (`type Update map[string]bson.M`). -/
abbrev Update := List (String × Doc)

/-- Read the sub-document of operator `t`. -/
def updGet (u : Update) (t : String) : Option Doc :=
  match u with
  | [] => none
  | (t', d) :: rest => if t' = t then some d else updGet rest t

/-- Write the sub-document of operator `t` (Go map assignment). -/
def updSet (u : Update) (t : String) (d : Doc) : Update :=
  match u with
  | [] => [(t, d)]
  | (t', d') :: rest => if t' = t then (t', d) :: rest else (t', d') :: updSet rest t d

/-- Delete the bucket of operator `t` (Go `delete`). -/
def updDel (u : Update) (t : String) : Update :=
  match u with
  | [] => []
  | (t', d') :: rest => if t' = t then updDel rest t else (t', d') :: updDel rest t

/-- Update.Has (src/update/update.go lines 32-39): whether operator bucket
`opt` holds field `filed`. -/
def Update.HasKey (u : Update) (opt filed : String) : Bool :=
  match updGet u opt with
  | none => false
  | some vs => docHas vs filed

/-- Normalize an operator name with the `$` prefix (shared by Update.Any,
Filter.Any and Filter.Match). -/
def dollar (t : String) : String :=
  if goStartsWith t "$" then t else "$" ++ t

/-- Update.Any (src/update/update.go lines 90-98): ensure the bucket exists
then assign the field. -/
def Update.Any (u : Update) (t k : String) (v : BVal) : Update :=
  match updGet u (dollar t) with
  | none => updSet u (dollar t) [(k, v)]
  | some d => updSet u (dollar t) (docSet d k v)

/-- Update.Set: write under the `$set` operator. -/
def Update.SetF (u : Update) (k : String) (v : BVal) : Update :=
  u.Any "$set" k v

/-- Update.MSet (src/update/update.go lines 99-107): merge a whole map under
`$set`; when the bucket is missing the map itself becomes the bucket. -/
def Update.MSet (u : Update) (vs : Doc) : Update :=
  match updGet u "$set" with
  | none => updSet u "$set" vs
  | some d => updSet u "$set" (vs.foldl (fun acc kv => docSet acc kv.1 kv.2) d)

/-- NewFromMap (src/update/update.go lines 24-28). -/
def NewFromMap (vs : Doc) : Update :=
  Update.MSet [] vs

/-- Update.Projection (src/update/update.go lines 131-139): the key set of
the `$set` and `$inc` buckets (projectionField), in that order. -/
def Update.ProjKeys (u : Update) : List String :=
  ((updGet u "$set").getD []).map Prod.fst ++ ((updGet u "$inc").getD []).map Prod.fst

/-- filterSetOnInsert (src/update/build.go lines 117-126): keep only the
entries of `data` whose key is absent from `update.Projection()`. -/
def filterSetOnInsert (data : Doc) (u : Update) : Doc :=
  data.filter (fun kv => !(kv.1 ∈ u.ProjKeys))

/-- The post-processing step of Build (src/update/build.go lines 42-49):
re-filter the `$setOnInsert` bucket, derive the upsert flag from whether it
stays non-empty, and drop the bucket when it empties. -/
def buildPost (u : Update) : Update × Bool :=
  match updGet u "$setOnInsert" with
  | none => (u, false)
  | some v =>
    let r := filterSetOnInsert v u
    if r.length > 0 then (updSet u "$setOnInsert" r, true)
    else (updDel u "$setOnInsert", false)

/-- A schema-declared struct field as parseStruct sees it: its database name,
its current value, and whether that value is the zero value of its type. -/
structure SField where
  dbName : String
  value : BVal
  isZero : Bool

/-- The field loop of parseStruct (src/update/build.go lines 95-107): skip the
primary key, and admit a field into `$set` when the Selector admits it and
either includeZeroValue is set or the value is non-zero. -/
def parseStructLoop (sel : Selector) (includeZeroValue : Bool)
    (fields : List SField) (u : Update) : Update :=
  match fields with
  | [] => u
  | f :: rest =>
    let u :=
      if f.dbName = "_id" then u
      else if sel.Has f.dbName && (includeZeroValue || !f.isZero) then
        u.SetF f.dbName f.value
      else u
    parseStructLoop sel includeZeroValue rest u

/-- parseStruct (src/update/build.go lines 78-115): run the field loop, then,
when the value implements the SetOnInsert capability and returns a non-empty
map without error, store that map under `$setOnInsert`. `soi = none` stands
for a value without the capability or with a failing or empty result. -/
def parseStruct (fields : List SField) (sel : Selector) (includeZeroValue : Bool)
    (soi : Option Doc) : Update :=
  let u := parseStructLoop sel includeZeroValue fields []
  match soi with
  | some d => if d.length > 0 then updSet u "$setOnInsert" d else u
  | none => u

/-- The input shapes Build accepts (src/update/build.go lines 28-37): a
pre-built Update, a plain map (treated as `$set`), or a struct with its
schema fields, selector, zero-value flag and optional set-on-insert map. -/
inductive BuildValue where
  | ofUpdate : Update → BuildValue
  | ofMap : Doc → BuildValue
  | ofStruct : List SField → Selector → Bool → Option Doc → BuildValue

/-- The parse step of Build before post-processing: parseMap for maps and
pre-built Updates (src/update/build.go lines 56-76, schema absent so no
Transform), parseStruct for structs. -/
def parseValue : BuildValue → Update
  | .ofUpdate u => u
  | .ofMap m => NewFromMap m
  | .ofStruct fields sel iz soi => parseStruct fields sel iz soi

/-- Build (src/update/build.go lines 28-52): parse the value, then apply the
setOnInsert re-filtering step and derive the upsert flag. -/
def Build (v : BuildValue) : Update × Bool :=
  buildPost (parseValue v)

end Cosmo.update

namespace Cosmo.clause
open Cosmo
open Cosmo.update (dollar)

/-- A Filter (src/clause/filter.go): `type Filter bson.M`, embedded as a
document. -/
abbrev Filter := Doc

/-- utils.ToArray (src/unnamed/part_016 lines 43-51): slices flatten to their
elements, anything else becomes a one-element array. -/
def toArray (v : BVal) : List BVal :=
  match v with
  | .vArr l => l
  | _ => [v]

/-- The slice a Go value yields under the assertion `x.([]interface{})`:
nil for non-slices. Used where Filter.Match and Filter.Any append. -/
def asArr (v : BVal) : List BVal :=
  match v with
  | .vArr l => l
  | _ => []

/-- The inner-document part of Filter.Any (src/clause/filter.go lines 79-89):
for `$in` / `$nin` append the array form of `v` to the existing entry,
otherwise assign `v` at the operator key. `t` is already `$`-prefixed. -/
def innerPut (d : Doc) (t : String) (v : BVal) : Doc :=
  if t = "$in" || t = "$nin" then
    let arr := toArray v
    match docGet d t with
    | none => docSet d t (.vArr arr)
    | some x => docSet d t (.vArr (asArr x ++ arr))
  else docSet d t v

/-- A condition node (src/clause/query.go lines 46-50). -/
structure Node where
  t : String
  k : String
  v : BVal

/-- The Query builder state (src/clause/query.go lines 56-60): the optional
pre-merged native filter, the simple where-node list, and the four complex
buckets of the `complex` map (the only keys the code ever writes). -/
structure Query where
  filter : Option Filter
  qwhere : List Node
  cOr : List Node
  cAnd : List Node
  cNot : List Node
  cNor : List Node

/-- clause.New (src/clause/query.go lines 36-40). -/
def Query.new : Query :=
  { filter := none, qwhere := [], cOr := [], cAnd := [], cNot := [], cNor := [] }

/-- Query.any (src/clause/query.go lines 94-99): append a node with the
`$`-normalized operator. -/
def Query.anyN (q : Query) (t k : String) (v : BVal) : Query :=
  { q with qwhere := q.qwhere ++ [⟨dollar t, k, v⟩] }

/-- Query.Eq (src/clause/query.go lines 117-119): `any("", k, v)`, so the
node operator is the bare `$` prefix. -/
def Query.Eq (q : Query) (k : String) (v : BVal) : Query :=
  q.anyN "" k v

/-- Query.In (src/clause/query.go lines 183-185). -/
def Query.In (q : Query) (k : String) (v : BVal) : Query :=
  q.anyN "$in" k v

/-- Query.match (src/clause/query.go lines 105-108): append nodes to the
complex bucket named by `t` (with the `$` prefix trimmed). -/
def Query.matchN (q : Query) (t : String) (v : List Node) : Query :=
  if t = "or" then { q with cOr := q.cOr ++ v }
  else if t = "and" then { q with cAnd := q.cAnd ++ v }
  else if t = "not" then { q with cNot := q.cNot ++ v }
  else if t = "nor" then { q with cNor := q.cNor ++ v }
  else q

/-- The render state of Query.Build. In Go the merged filter shares its inner
maps with `q.filter`; a key is recorded in `aliased` while the entry of the
document under construction is still the same object as the entry of the
pre-merged filter, so an in-place mutation through it is visible in both. -/
structure BState where
  f : Filter
  pf : Option Filter
  aliased : List String

/-- Filter.Eq / Filter.Any over the render state (src/clause/filter.go lines
65-90 and 101-107). A fresh inner map breaks the alias for that key; an
in-place write to an aliased inner map is propagated to the pre-merged
filter, which is exactly what the shared Go map does. -/
def anyS (st : BState) (t k : String) (v : BVal) : BState :=
  let t := dollar t
  match docGet st.f k with
  | none =>
    { st with f := docSet st.f k (.vDoc (innerPut [] t v)) }
  | some (.vDoc d) =>
    let d' := innerPut d t v
    { f := docSet st.f k (.vDoc d'),
      pf := if k ∈ st.aliased then st.pf.map (fun p => docSet p k (.vDoc d')) else st.pf,
      aliased := st.aliased }
  | some old =>
    -- ToBson fails on a non-map value: a fresh map {$in: [old]} replaces the
    -- entry, then the operator write lands in that fresh map.
    { st with
      f := docSet st.f k (.vDoc (innerPut [("$in", .vArr [old])] t v)),
      aliased := st.aliased.erase k }

def eqS (st : BState) (k : String) (v : BVal) : BState :=
  match docGet st.f k with
  | none => { st with f := docSet st.f k v }
  | some _ => anyS st "$in" k v

/-- Filter.Match (src/clause/filter.go lines 31-42): appending replaces the
top-level entry with a fresh slice, so any alias at that key is broken and
the pre-merged filter is not changed. -/
def matchS (st : BState) (t : String) (v : BVal) : BState :=
  let t := dollar t
  let arr := toArray v
  match docGet st.f t with
  | none => { st with f := docSet st.f t (.vArr arr) }
  | some x =>
    { st with f := docSet st.f t (.vArr (asArr x ++ arr)), aliased := st.aliased.erase t }

/-- A schema as Query.Build consumes it: a translation from struct field
names to database field names (LookUpField + DBName). -/
abbrev Schema := List (String × String)

/-- The key resolution of build (src/clause/build.go lines 25-30). -/
def resolveKey (model : Option Schema) (k : String) : String :=
  match model with
  | none => k
  | some s =>
    match (s.find? (fun p => p.1 = k)) with
    | some p => p.2
    | none => k

/-- build (src/clause/build.go lines 24-36) over the render state: equality
nodes go through Filter.Eq, every other operator through Filter.Any. -/
def buildNodeS (model : Option Schema) (st : BState) (n : Node) : BState :=
  let k := resolveKey model n.k
  if n.t = "$" then eqS st k n.v else anyS st n.t k n.v

/-- build on a fresh filter, as the complex loop of Query.Build uses it. -/
def buildNodeP (model : Option Schema) (n : Node) : Filter :=
  (buildNodeS model { f := [], pf := none, aliased := [] } n).f

/-- One complex bucket of Query.Build (src/clause/build.go lines 14-20):
render each node into a fresh sub-filter and attach it under the bucket. -/
def buildComplexS (model : Option Schema) (t : String) (st : BState)
    (nodes : List Node) : BState :=
  nodes.foldl (fun st n => matchS st t (.vDoc (buildNodeP model n))) st

/-- The keys of a filter whose entries are Go maps: exactly the entries whose
merged copy aliases the original. -/
def docKeys (f : Filter) : List String :=
  (f.filter (fun kv => kv.2.isDoc)).map Prod.fst

/-- Filter.Merge (src/clause/filter.go lines 178-182) of the pre-merged
filter into a fresh document, as Query.Build starts with. -/
def mergeInit (pf : Filter) : Filter :=
  pf.foldl (fun acc kv => docSet acc kv.1 kv.2) []

/-- The initial render state of Query.Build: the pre-built filter merged into
a fresh document; every doc-valued entry of the pre-merged filter starts out
aliased. -/
def buildInit (q : Query) : BState :=
  match q.filter with
  | some pf => { f := mergeInit pf, pf := some pf, aliased := docKeys pf }
  | none => { f := [], pf := none, aliased := [] }

/-- The rendering pipeline of Query.Build after the merge: the simple nodes
in order, then the four complex buckets in the order of complexCondition. -/
def buildSteps (q : Query) (model : Option Schema) (st0 : BState) : BState :=
  buildComplexS model "nor"
    (buildComplexS model "not"
      (buildComplexS model "and"
        (buildComplexS model "or"
          (q.qwhere.foldl (fun st n => buildNodeS model st n) st0)
          q.cOr)
        q.cAnd)
      q.cNot)
    q.cNor

/-- Query.Build (src/clause/build.go lines 6-22): merge the pre-built filter,
render the simple nodes, then the four complex buckets. The returned Query
carries the pre-merged filter as the in-place mutations left it. -/
def Query.Build (q : Query) (model : Option Schema) : Filter × Query :=
  ((buildSteps q model (buildInit q)).f,
   { q with filter := (buildSteps q model (buildInit q)).pf })

/-- Multiple (src/clause/funcs.go lines 13-23): a filter is a batch filter
unless its `_id` entry exists and is not a map value. -/
def Multiple (query : Filter) : Bool :=
  match docGet query "_id" with
  | none => true
  | some v =>
    match v with
    | .vDoc _ => true
    | _ => false

/-- Whether a Go value is one of the scalar types of the type switch in
formPrimary / formString (src/clause/where.go lines 66-67 and 74-75). -/
def isScalar (v : BVal) : Bool :=
  match v with
  | .vInt _ => true
  | .vStr _ => true
  | _ => false

/-- Query.formPrimary (src/clause/where.go lines 65-72): a scalar is an
equality on `_id`, everything else a set-membership on `_id`. -/
def Query.formPrimary (q : Query) (v : BVal) : Query :=
  if isScalar v then q.Eq "_id" v else q.In "_id" v

/-- Query.formString (src/clause/where.go lines 73-80). -/
def Query.formString (q : Query) (k : String) (v : BVal) : Query :=
  if isScalar v then q.Eq k v else q.In k v

end Cosmo.clause

namespace Cosmo.clause
open Cosmo

/-- Go strings.Contains for a non-empty substring: splitting on it yields
more than one piece. -/
def goContains (s t : String) : Bool :=
  (goSplit s t).length > 1

/-- Go strings.Trim(s, " "): drop spaces from both ends. -/
def trimSpaces (s : String) : String :=
  String.mk (((s.toList.dropWhile (fun c => c = ' ')).reverse.dropWhile
    (fun c => c = ' ')).reverse)

/-- whereComplexMap (src/clause/where.go lines 33-37): each composite token
joined by the SQL separator, in complexCondition order. -/
def complexPairs : List (String × String) :=
  [("or", " OR "), ("and", " AND "), ("not", " NOT "), ("nor", " NOR ")]

/-- whereConditionArr (src/clause/where.go line 15). -/
def condTokens : List String :=
  ["NIN", "IN", "!=", "<>", ">=", "<=", ">", "<", "="]

/-- whereConditionSql (src/clause/where.go lines 39-46): array conditions are
matched space-delimited, the symbolic ones verbatim. -/
def condSql (w : String) : String :=
  if w = "NIN" then " NIN " else if w = "IN" then " IN " else w

/-- whereConditionMongo (src/clause/where.go lines 17-27). -/
def condMongo (w : String) : String :=
  if w = "=" then ""
  else if w = "!=" then "nin"
  else if w = "<>" then "nin"
  else if w = ">=" then "gte"
  else if w = "<=" then "lte"
  else if w = ">" then "gt"
  else if w = "<" then "lt"
  else if w = "IN" then "in"
  else if w = "NIN" then "nin"
  else ""

/-- IsQueryFormat (src/clause/where.go lines 50-57). -/
def IsQueryFormat (s : String) : Bool :=
  condTokens.any (fun k => goContains s k)

/-- Go strconv.Atoi with the error discarded, as formatWhereFuncInt uses it. -/
def goAtoi (s : String) : Int :=
  (s.toInt?).getD 0

/-- Strip the type prefix and the closing parenthesis, as the formatter
functions of src/clause/format.go do. -/
def trimTypeWrapper (t s : String) : String :=
  let s := s.drop t.length
  if goEndsWith s ")" then String.mk (s.toList.dropLast) else s

/-- formatWhereValue (src/clause/where.go lines 176-187) with the registered
formatters of src/clause/format.go. The float formatters are kept symbolic:
their literal is recorded unparsed, since floating point is outside this
model, and no checked property touches them. -/
def formatWhereValue (v : BVal) : BVal :=
  match v with
  | .vStr s =>
    if goStartsWith s "int(" then .vInt (goAtoi (trimTypeWrapper "int(" s))
    else if goStartsWith s "int32(" then .vInt (goAtoi (trimTypeWrapper "int32(" s))
    else if goStartsWith s "int64(" then .vInt (goAtoi (trimTypeWrapper "int64(" s))
    else if goStartsWith s "float(" then .vStr (trimTypeWrapper "float(" s)
    else if goStartsWith s "float32(" then .vStr (trimTypeWrapper "float32(" s)
    else if goStartsWith s "float64(" then .vStr (trimTypeWrapper "float64(" s)
    else v
  | _ => v

/-- parseWherePair (src/clause/where.go lines 152-174): split the pair on the
raw condition token; exactly two sides are required; the node operator is the
`$`-prefixed translation; a `?` right-hand side takes the positional argument
(nil when none was matched), anything else goes through formatWhereValue. -/
def parseWherePair (pair w : String) (v : Option BVal) : Option Node :=
  match goSplit pair w with
  | [a, b] =>
    let rhs := trimSpaces b
    let value := if rhs = "?" then v.getD .vNull else formatWhereValue (.vStr rhs)
    some ⟨"$" ++ condMongo w, trimSpaces a, value⟩
  | _ => none

/-- The node loop of formClause (src/clause/where.go lines 96-113): each
piece consumes the next positional argument when it contains a `?`, then the
first matching condition token parses it. -/
def formNodesGo (pairs : List String) (args : List BVal) (argIndex : Nat)
    (acc : List Node) : List Node :=
  match pairs with
  | [] => acc
  | pair :: rest =>
    let takeArg := goContains pair "?" && argIndex < args.length
    let v : Option BVal := if takeArg then args.get? argIndex else none
    let argIndex' := if takeArg then argIndex + 1 else argIndex
    let acc' :=
      match condTokens.find? (fun w => goContains pair (condSql w)) with
      | some w =>
        match parseWherePair pair w v with
        | some n => acc ++ [n]
        | none => acc
      | none => acc
    formNodesGo rest args argIndex' acc'

/-- Query.formClause (src/clause/where.go lines 81-119): split on the first
composite token present (falling back to a single piece under the implicit
AND), parse the pieces into nodes, and flatten them into the simple where
list when the composite type is AND, otherwise register them under the
composite bucket. -/
def Query.formClause (q : Query) (query : String) (args : List BVal) : Query :=
  let found := complexPairs.find? (fun p => goContains query p.2)
  let whereType := match found with | some p => p.1 | none => "and"
  let arr := match found with | some p => goSplit query p.2 | none => [query]
  let nodes := formNodesGo arr args 0 []
  if whereType = "and" then { q with qwhere := q.qwhere ++ nodes }
  else q.matchN whereType nodes

/-- The string dispatch of Query.Where (src/clause/where.go lines 121-132):
a condition-shaped string goes to formClause, a bare string with no extra
arguments is a primary-key match, with one argument a field match, with more
a field set-membership over all of them. -/
def Query.WhereStr (q : Query) (k : String) (cons : List BVal) : Query :=
  if IsQueryFormat k then q.formClause k cons
  else
    match cons with
    | [] => q.formPrimary (.vStr k)
    | [v] => q.formString k v
    | vs => q.formString k (.vArr vs)

end Cosmo.clause

namespace Cosmo.pool

/-- The environment one call of Manager.Execute runs against: whether the
caller context is cancelled at the two checkpoints, the outcome of the first
operation run, what the quick probe reports, whether WaitForHealthy reaches
the needed consecutive healthy probes inside the wait budget, and the
outcome of the retried run. Errors are their message strings. -/
structure ExecEnv where
  ctxCancelledBefore : Bool
  firstResult : Option String
  ctxCancelledAfter : Bool
  healthy : Bool
  waitHealthy : Bool
  secondResult : Option String

/-- What Execute returns: success, the operation error passed through, the
context error, or the cannot-recover error wrapping the operation error. -/
inductive ExecOutcome where
  | success
  | opError (e : String)
  | ctxError
  | cannotRecover (wrapped : String)
  deriving Repr, DecidableEq

/-- The observable effects of one Execute call: its return value, whether
tryRecover was invoked, and how many times the operation ran. -/
structure ExecTrace where
  outcome : ExecOutcome
  recoverTriggered : Bool
  operationRuns : Nat
  deriving Repr, DecidableEq

/-- Manager.Execute (src/health.go lines 524-563, src/unnamed/part_015 lines
515-554): run the operation; on success return; consult the context; if the
quick probe reports healthy return the original error untouched; otherwise
invoke tryRecover synchronously, wait for healthy within the budget, and
either retry the operation exactly once or return the wrapping error. -/
def ManagerExecute (env : ExecEnv) : ExecTrace :=
  if env.ctxCancelledBefore then ⟨.ctxError, false, 0⟩
  else
    match env.firstResult with
    | none => ⟨.success, false, 1⟩
    | some e =>
      if env.ctxCancelledAfter then ⟨.ctxError, false, 1⟩
      else if env.healthy then ⟨.opError e, false, 1⟩
      else if env.waitHealthy then
        match env.secondResult with
        | none => ⟨.success, true, 2⟩
        | some e2 => ⟨.opError e2, true, 2⟩
      else ⟨.cannotRecover e, true, 1⟩

/-- Config.BackoffBase (src/unnamed/part_015 line 70). -/
def backoffBase : Nat := 2

/-- Config.AttemptOffset (src/unnamed/part_015 line 71). -/
def attemptOffset : Nat := 1

/-- The backoff delay slept before retry `attempt` of tryRecover
(src/health.go lines 325-334, src/unnamed/part_015 lines 302-311), durations
in nanoseconds: `base^(attempt-offset) * retryDelay` capped at the maximum
backoff delay. The first attempt (attempt = 0) sleeps no backoff. -/
def backoffDelay (retryDelay maxBackoffDelay : Nat) (attempt : Nat) : Nat :=
  if backoffBase ^ (attempt - attemptOffset) * retryDelay > maxBackoffDelay then maxBackoffDelay
  else backoffBase ^ (attempt - attemptOffset) * retryDelay

end Cosmo.pool

namespace Cosmo.cmd
open Cosmo Cosmo.clause Cosmo.update

/-- ErrMissingWhereClause (src/unnamed/part_014 line 11). -/
def errMissingWhereClause : String := "WHERE conditions required"

/-- The store calls a command can issue (the mongo collection methods the
update and delete commands reach). -/
inductive StoreOp where
  | updateMany (filter : Filter) (data : Update)
  | updateOne (filter : Filter) (data : Update) (upsert : Bool)
  | findOneAndUpdate (filter : Filter) (data : Update) (upsert : Bool)
  | deleteMany (filter : Filter)
  | deleteOne (filter : Filter)

/-- cmdUpdate (src/command.go lines 147-176): build the update document,
render the filter, refuse an empty filter before touching the store, then
issue exactly one store call chosen by the statement flags. The result pairs
the command error with the trace of store calls issued. -/
def cmdUpdate (buildResult : Except String (Update × Bool)) (filter : Filter)
    (multiple updateAndModifyModel stmtUpsert : Bool) :
    Except String Unit × List StoreOp :=
  match buildResult with
  | .error e => (.error e, [])
  | .ok (data, upsert) =>
    if filter.length = 0 then (.error errMissingWhereClause, [])
    else if multiple then (.ok (), [.updateMany filter data])
    else if updateAndModifyModel then
      (.ok (), [.findOneAndUpdate filter data (upsert || stmtUpsert)])
    else (.ok (), [.updateOne filter data (upsert || stmtUpsert)])

/-- cmdDelete (src/command.go lines 219-235): render the filter, refuse an
empty filter before touching the store, then delete many or one according to
the Multiple classification. -/
def cmdDelete (filter : Filter) : Except String Unit × List StoreOp :=
  if filter.length = 0 then (.error errMissingWhereClause, [])
  else if Multiple filter then (.ok (), [.deleteMany filter])
  else (.ok (), [.deleteOne filter])

end Cosmo.cmd

namespace Cosmo
open Cosmo.update Cosmo.clause Cosmo.pool Cosmo.cmd

/-- C6: once a Select call has succeeded the selector is in select mode and
every subsequent Omit call returns false and leaves the selector unchanged;
symmetrically once an Omit call has succeeded every subsequent Select call
returns false and changes nothing; successful calls keep the mode they set,
so the mode never switches between select and omit except through Release. -/
theorem C6_selector_exclusive (s : Selector) (cols : List String) :
    (s.selector = .stSelect → s.Omit cols = (false, s)) ∧
    (s.selector = .stOmit → s.Select cols = (false, s)) ∧
    ((s.Select cols).1 = true → (s.Select cols).2.selector = .stSelect) ∧
    ((s.Omit cols).1 = true → (s.Omit cols).2.selector = .stOmit) := by
  obtain ⟨mode, proj⟩ := s
  cases mode <;> simp [Selector.Select, Selector.Omit]

/-- Witness for C6 at concrete selectors in each mode. -/
theorem C6_selector_exclusive_witness :
    (Selector.mk .stSelect (some ["a"])).Omit ["b"] = (false, Selector.mk .stSelect (some ["a"])) ∧
    (Selector.mk .stOmit (some ["a"])).Select ["b"] = (false, Selector.mk .stOmit (some ["a"])) :=
  ⟨(C6_selector_exclusive (Selector.mk .stSelect (some ["a"])) ["b"]).1 rfl,
   (C6_selector_exclusive (Selector.mk .stOmit (some ["a"])) ["b"]).2.1 rfl⟩

/-- C10: Select with zero field names on a fresh selector returns true and
switches into select mode with an empty non-nil map, so every later Omit
fails without effect, yet Is still applies the default only-non-zero rule
for every key. -/
theorem C10_empty_select_defaults (key : String) (isZero : Bool) (cols : List String) :
    ((Selector.empty.Select []).1 = true) ∧
    ((Selector.empty.Select []).2.selector = .stSelect) ∧
    ((Selector.empty.Select []).2.projection = some []) ∧
    ((Selector.empty.Select []).2.Omit cols = (false, (Selector.empty.Select []).2)) ∧
    ((Selector.empty.Select []).2.Is key isZero = !isZero) := by
  refine ⟨rfl, rfl, rfl, ?_, ?_⟩ <;> simp [Selector.empty, Selector.Select, Selector.Omit,
    Selector.Is]

/-- C1: when the first run of the operation fails and the caller context is
not cancelled, Execute returns the error untouched with no recovery while
the quick probe reports healthy; when the probe reports unhealthy it invokes
tryRecover and, if WaitForHealthy succeeds within the budget, runs the
operation exactly once more and returns its result, otherwise it returns the
cannot-recover error wrapping the original failure. -/
theorem C1_execute_guarded (env : ExecEnv) (e : String)
    (hb : env.ctxCancelledBefore = false) (ha : env.ctxCancelledAfter = false)
    (hf : env.firstResult = some e) :
    (env.healthy = true → ManagerExecute env = ⟨.opError e, false, 1⟩) ∧
    (env.healthy = false → env.waitHealthy = true →
      ManagerExecute env =
        ⟨match env.secondResult with
         | none => .success
         | some e2 => .opError e2, true, 2⟩) ∧
    (env.healthy = false → env.waitHealthy = false →
      ManagerExecute env = ⟨.cannotRecover e, true, 1⟩) := by
  refine ⟨fun hh => ?_, fun hh hw => ?_, fun hh hw => ?_⟩
  · simp [ManagerExecute, hb, ha, hf, hh]
  · simp only [ManagerExecute, hb, ha, hf, hh, hw, Bool.false_eq_true, if_false]
    cases env.secondResult <;> rfl
  · simp [ManagerExecute, hb, ha, hf, hh, hw]

/-- Witness for C1: a concrete environment for each branch. -/
theorem C1_execute_guarded_witness :
    ManagerExecute ⟨false, some "boom", false, true, false, none⟩ = ⟨.opError "boom", false, 1⟩ ∧
    ManagerExecute ⟨false, some "boom", false, false, true, none⟩ = ⟨.success, true, 2⟩ ∧
    ManagerExecute ⟨false, some "boom", false, false, false, none⟩ = ⟨.cannotRecover "boom", true, 1⟩ :=
  ⟨(C1_execute_guarded ⟨false, some "boom", false, true, false, none⟩ "boom" rfl rfl rfl).1 rfl,
   (C1_execute_guarded ⟨false, some "boom", false, false, true, none⟩ "boom" rfl rfl rfl).2.1 rfl rfl,
   (C1_execute_guarded ⟨false, some "boom", false, false, false, none⟩ "boom" rfl rfl rfl).2.2 rfl rfl⟩

/-- C8: for every retry attempt k >= 1 the backoff slept equals
min(2^(k-1) * retryDelay, maxBackoffDelay); the first retry sleeps exactly
retryDelay, successive delays strictly increase while below the cap, and
once the cap is reached they stay there. -/
theorem C8_backoff_exponential (d cap k : Nat) (hk : 1 ≤ k) (hd : 0 < d) (hcap : d ≤ cap) :
    backoffDelay d cap k = min (2 ^ (k - 1) * d) cap ∧
    backoffDelay d cap 1 = d ∧
    (backoffDelay d cap k < cap → backoffDelay d cap k < backoffDelay d cap (k + 1)) ∧
    (backoffDelay d cap k = cap → backoffDelay d cap (k + 1) = cap) := by
  have hx : 0 < 2 ^ (k - 1) * d := Nat.mul_pos (Nat.pos_pow_of_pos _ (by decide)) hd
  have hdouble : 2 ^ (k + 1 - 1) * d = 2 * (2 ^ (k - 1) * d) := by
    have hkk : k + 1 - 1 = (k - 1) + 1 := by omega
    rw [hkk, pow_succ]; ring
  unfold backoffDelay backoffBase attemptOffset
  rw [hdouble]
  refine ⟨?_, ?_, ?_, ?_⟩
  · rw [Nat.min_def]; split_ifs <;> omega
  · simp only [Nat.sub_self, pow_zero, one_mul]; split_ifs <;> omega
  · intro h; split_ifs at h ⊢ <;> omega
  · intro h; split_ifs at h ⊢ <;> omega

/-- Witness for C8 at the default configuration, retryDelay 2s, cap 30s
(units of seconds), first retry. -/
theorem C8_backoff_exponential_witness :
    backoffDelay 2 30 1 = 2 ∧ backoffDelay 2 30 1 < backoffDelay 2 30 2 :=
  ⟨(C8_backoff_exponential 2 30 1 (by decide) (by decide) (by decide)).2.1,
   (C8_backoff_exponential 2 30 1 (by decide) (by decide) (by decide)).2.2.1 (by decide)⟩

/-- C9: with an empty rendered filter both the update command and the delete
command return the missing-where-clause error, issue no store operation, and
leave any store state unchanged. -/
theorem C9_empty_filter_rejected (filter : Filter) (data : Update)
    (upsert multiple uam su : Bool) (hf : filter = []) :
    cmdUpdate (.ok (data, upsert)) filter multiple uam su = (.error errMissingWhereClause, []) ∧
    cmdDelete filter = (.error errMissingWhereClause, []) ∧
    (∀ {α : Type} (step : α → StoreOp → α) (s : α),
      ((cmdUpdate (.ok (data, upsert)) filter multiple uam su).2.foldl step s = s ∧
       (cmdDelete filter).2.foldl step s = s)) := by
  subst hf
  refine ⟨rfl, rfl, fun step s => ⟨rfl, rfl⟩⟩

/-- Witness for C9 at a concrete empty filter. -/
theorem C9_empty_filter_rejected_witness :
    cmdUpdate (.ok ([("$set", [("name", .vStr "x")])], false)) [] false false false
      = (.error errMissingWhereClause, []) ∧
    cmdDelete [] = (.error errMissingWhereClause, []) :=
  ⟨(C9_empty_filter_rejected [] [("$set", [("name", .vStr "x")])] false false false false rfl).1,
   (C9_empty_filter_rejected [] [("$set", [("name", .vStr "x")])] false false false false rfl).2.1⟩

/-- C5: Multiple is true on a filter with no primary-key constraint, true on
the membership document rendered from an array primary-key argument, and
false when the primary key is a single scalar. -/
theorem C5_multiple_classification (f : Filter) (h : docGet f "_id" = none) :
    Multiple f = true ∧
    Multiple ((Query.new.formPrimary (.vArr [.vInt 1, .vInt 2, .vInt 3])).Build none).1 = true ∧
    Multiple ((Query.new.formPrimary (.vInt 42)).Build none).1 = false := by
  refine ⟨?_, rfl, rfl⟩
  unfold Multiple
  rw [h]

/-- Witness for C5 at the empty filter. -/
theorem C5_multiple_classification_witness : Multiple [] = true :=
  (C5_multiple_classification [] rfl).1

/-- C7: Where with an AND-joined SQL-like string followed by Build renders
the flat implicit-AND filter with positional placeholder substitution; the
clauses land in the simple where-node list and every complex bucket stays
empty. -/
theorem C7_sql_and_flattens :
    ((Query.new.WhereStr "age > ? AND name = ?" [.vInt 18, .vStr "John"]).Build none).1
      = [("age", .vDoc [("$gt", .vInt 18)]), ("name", .vStr "John")] ∧
    (Query.new.WhereStr "age > ? AND name = ?" [.vInt 18, .vStr "John"]).qwhere.length = 2 ∧
    (Query.new.WhereStr "age > ? AND name = ?" [.vInt 18, .vStr "John"]).cAnd = [] ∧
    (Query.new.WhereStr "age > ? AND name = ?" [.vInt 18, .vStr "John"]).cOr = [] ∧
    (Query.new.WhereStr "age > ? AND name = ?" [.vInt 18, .vStr "John"]).cNot = [] ∧
    (Query.new.WhereStr "age > ? AND name = ?" [.vInt 18, .vStr "John"]).cNor = [] := by
  refine ⟨rfl, rfl, rfl, rfl, rfl, rfl⟩

end Cosmo

namespace Cosmo

theorem docGet_docSet_self (d : Doc) (k : String) (v : BVal) :
    docGet (docSet d k v) k = some v := by
  induction d with
  | nil => simp [docGet, docSet]
  | cons kv rest ih =>
    obtain ⟨k', v'⟩ := kv
    by_cases h : k' = k <;> simp [docGet, docSet, h, ih]

theorem docGet_docSet_ne (d : Doc) (k k' : String) (v : BVal) (h : k ≠ k') :
    docGet (docSet d k v) k' = docGet d k' := by
  induction d with
  | nil => simp [docGet, docSet, h]
  | cons kv rest ih =>
    obtain ⟨k₀, v₀⟩ := kv
    by_cases h₀ : k₀ = k
    · subst h₀; simp [docGet, docSet, h]
    · simp only [docSet, if_neg h₀]
      by_cases h₁ : k₀ = k' <;> simp [docGet, h₁, ih]

theorem docHas_docSet (d : Doc) (k k' : String) (v : BVal) :
    docHas (docSet d k v) k' = (docHas d k' || k' = k) := by
  by_cases h : k = k'
  · subst h; simp [docHas, docGet_docSet_self]
  · have h' : ¬k' = k := fun hh => h hh.symm
    simp [docHas, docGet_docSet_ne d k k' v h, h']

theorem docHas_iff_exists_mem (d : Doc) (k : String) :
    docHas d k = true ↔ ∃ v, (k, v) ∈ d := by
  induction d with
  | nil => simp [docHas, docGet]
  | cons kv rest ih =>
    obtain ⟨k', v'⟩ := kv
    by_cases h : k' = k
    · subst h; simp [docHas, docGet]
    · simp only [docHas, docGet, if_neg h, List.mem_cons] at *
      rw [ih]
      constructor
      · rintro ⟨v, hv⟩; exact ⟨v, Or.inr hv⟩
      · rintro ⟨v, hv | hv⟩
        · cases hv; exact absurd rfl h
        · exact ⟨v, hv⟩

end Cosmo

namespace Cosmo.update
open Cosmo

theorem updGet_updSet_self (u : Update) (t : String) (d : Doc) :
    updGet (updSet u t d) t = some d := by
  induction u with
  | nil => simp [updGet, updSet]
  | cons kv rest ih =>
    obtain ⟨t', d'⟩ := kv
    by_cases h : t' = t <;> simp [updGet, updSet, h, ih]

theorem updGet_updSet_ne (u : Update) (t t' : String) (d : Doc) (h : t ≠ t') :
    updGet (updSet u t d) t' = updGet u t' := by
  induction u with
  | nil => simp [updGet, updSet, h]
  | cons kv rest ih =>
    obtain ⟨t₀, d₀⟩ := kv
    by_cases h₀ : t₀ = t
    · subst h₀; simp [updGet, updSet, h]
    · simp only [updSet, if_neg h₀]
      by_cases h₁ : t₀ = t' <;> simp [updGet, h₁, ih]

theorem updGet_updDel_self (u : Update) (t : String) :
    updGet (updDel u t) t = none := by
  induction u with
  | nil => simp [updGet, updDel]
  | cons kv rest ih =>
    obtain ⟨t₀, d₀⟩ := kv
    by_cases h₀ : t₀ = t <;> simp [updGet, updDel, h₀, ih]

theorem ProjKeys_updSet_soi (u : Update) (d : Doc) :
    (updSet u "$setOnInsert" d).ProjKeys = u.ProjKeys := by
  unfold Update.ProjKeys
  rw [updGet_updSet_ne u _ _ d (by decide), updGet_updSet_ne u _ _ d (by decide)]

theorem mem_filterSetOnInsert (data : Doc) (u : Update) (k : String)
    (h : docHas (filterSetOnInsert data u) k = true) : k ∉ u.ProjKeys := by
  obtain ⟨v, hv⟩ := (docHas_iff_exists_mem _ _).mp h
  unfold filterSetOnInsert at hv
  have hm := List.mem_filter.mp hv
  simpa using hm.2

/-- C2 counterexample: a pre-built Update that unsets field a and also
declares a under setOnInsert passes through Build with a still present in
both buckets and the upsert flag raised, because the re-filtering step only
consults the $set and $inc buckets. -/
theorem C2_counterexample_shared_unset :
    (Build (.ofUpdate [("$unset", [("a", .vInt 1)]),
        ("$setOnInsert", [("a", .vInt 5)])])).1.HasKey "$setOnInsert" "a" = true ∧
    (Build (.ofUpdate [("$unset", [("a", .vInt 1)]),
        ("$setOnInsert", [("a", .vInt 5)])])).1.HasKey "$unset" "a" = true ∧
    (Build (.ofUpdate [("$unset", [("a", .vInt 1)]),
        ("$setOnInsert", [("a", .vInt 5)])])).2 = true :=
  ⟨rfl, rfl, rfl⟩

/-- C2 amended: after Build, no key of the $setOnInsert bucket also appears
under the $set or $inc buckets (the Projection buckets) of the same Update
document; the upsert flag is true exactly when the bucket is non-empty after
this re-filtering, the surviving bucket is exactly the filtered map, and an
emptied bucket is removed entirely. Keys shared with other buckets such as
$unset are not filtered. -/
theorem C2_amended_setOnInsert (v : BuildValue) (d : Doc)
    (h : updGet (parseValue v) "$setOnInsert" = some d) :
    ((Build v).2 = true ↔ filterSetOnInsert d (parseValue v) ≠ []) ∧
    (∀ k, (Build v).1.HasKey "$setOnInsert" k = true → k ∉ (Build v).1.ProjKeys) ∧
    (filterSetOnInsert d (parseValue v) = [] →
      updGet (Build v).1 "$setOnInsert" = none) ∧
    (filterSetOnInsert d (parseValue v) ≠ [] →
      updGet (Build v).1 "$setOnInsert" = some (filterSetOnInsert d (parseValue v))) := by
  have hpost : Build v = if (filterSetOnInsert d (parseValue v)).length > 0
      then (updSet (parseValue v) "$setOnInsert" (filterSetOnInsert d (parseValue v)), true)
      else (updDel (parseValue v) "$setOnInsert", false) := by
    unfold Build buildPost
    rw [h]
  by_cases hr : filterSetOnInsert d (parseValue v) = []
  · have hbuild : Build v = (updDel (parseValue v) "$setOnInsert", false) := by
      rw [hpost, hr]
      simp
    rw [hbuild]
    refine ⟨by simp [hr], ?_, fun _ => updGet_updDel_self _ _, fun hne => absurd hr hne⟩
    intro k hk
    unfold Update.HasKey at hk
    rw [updGet_updDel_self] at hk
    exact absurd hk (by simp)
  · have hlen : (filterSetOnInsert d (parseValue v)).length > 0 := List.length_pos.mpr hr
    have hbuild : Build v =
        (updSet (parseValue v) "$setOnInsert" (filterSetOnInsert d (parseValue v)), true) := by
      rw [hpost]
      simp [hlen]
    rw [hbuild]
    refine ⟨by simp [hr], ?_, fun h0 => absurd h0 hr, fun _ => updGet_updSet_self _ _ _⟩
    intro k hk
    simp only [Update.HasKey, updGet_updSet_self] at hk
    rw [ProjKeys_updSet_soi]
    exact mem_filterSetOnInsert _ _ _ hk

/-- Witness for C2 at a value that sets name and declares name and b under
set-on-insert: name survives only under $set, b keeps the bucket alive. -/
theorem C2_amended_setOnInsert_witness :
    (Build (.ofUpdate [("$set", [("name", .vStr "x")]),
        ("$setOnInsert", [("name", .vStr "y"), ("b", .vInt 1)])])).2 = true ∧
    updGet (Build (.ofUpdate [("$set", [("name", .vStr "x")]),
        ("$setOnInsert", [("name", .vStr "y"), ("b", .vInt 1)])])).1 "$setOnInsert"
      = some [("b", .vInt 1)] :=
  ⟨(C2_amended_setOnInsert (.ofUpdate [("$set", [("name", .vStr "x")]),
        ("$setOnInsert", [("name", .vStr "y"), ("b", .vInt 1)])])
      [("name", .vStr "y"), ("b", .vInt 1)] rfl).1.mpr (List.cons_ne_nil _ _),
   (C2_amended_setOnInsert (.ofUpdate [("$set", [("name", .vStr "x")]),
        ("$setOnInsert", [("name", .vStr "y"), ("b", .vInt 1)])])
      [("name", .vStr "y"), ("b", .vInt 1)] rfl).2.2.2 (List.cons_ne_nil _ _)⟩

theorem HasKey_SetF (u : Update) (k k' : String) (v : BVal) :
    ((u.SetF k v).HasKey "$set" k' = true) ↔ (u.HasKey "$set" k' = true ∨ k' = k) := by
  have hds : dollar "$set" = "$set" := rfl
  cases hg : updGet u "$set" with
  | none =>
    simp only [Update.SetF, Update.Any, hds, hg, Update.HasKey, updGet_updSet_self]
    by_cases h : k = k'
    · subst h; simp [docHas, docGet]
    · have h' : ¬k' = k := fun hh => h hh.symm
      simp [docHas, docGet, h, h']
  | some dd =>
    simp only [Update.SetF, Update.Any, hds, hg, Update.HasKey, updGet_updSet_self]
    rw [docHas_docSet]
    simp

theorem parseStruct_set_eq_loop (fields : List SField) (sel : Selector) (iz : Bool)
    (soi : Option Doc) (k : String) :
    (parseStruct fields sel iz soi).HasKey "$set" k
      = (parseStructLoop sel iz fields []).HasKey "$set" k := by
  unfold parseStruct
  cases soi with
  | none => rfl
  | some dd =>
    by_cases h : dd.length > 0
    · simp only [if_pos h, Update.HasKey,
        updGet_updSet_ne _ _ _ _ (by decide : "$setOnInsert" ≠ "$set")]
    · simp [h]

theorem parseStructLoop_hasKey (sel : Selector) (iz : Bool) (fields : List SField)
    (u : Update) (k : String) :
    ((parseStructLoop sel iz fields u).HasKey "$set" k = true) ↔
      (u.HasKey "$set" k = true ∨
        ∃ f ∈ fields, f.dbName = k ∧ k ≠ "_id" ∧ sel.Has k = true ∧
          (iz || !f.isZero) = true) := by
  induction fields generalizing u with
  | nil => simp [parseStructLoop]
  | cons f rest ih =>
    by_cases hid : f.dbName = "_id"
    · have hstep : parseStructLoop sel iz (f :: rest) u = parseStructLoop sel iz rest u := by
        simp [parseStructLoop, hid]
      rw [hstep, ih]
      constructor
      · rintro (hu | ⟨g, hg, hrest⟩)
        · exact Or.inl hu
        · exact Or.inr ⟨g, List.mem_cons_of_mem _ hg, hrest⟩
      · rintro (hu | ⟨g, hg, hname, hnid, hsel, hcond⟩)
        · exact Or.inl hu
        · rcases List.mem_cons.mp hg with hgf | hgr
          · subst hgf; exact absurd (hname ▸ hid) hnid
          · exact Or.inr ⟨g, hgr, hname, hnid, hsel, hcond⟩
    · by_cases hadm : (sel.Has f.dbName && (iz || !f.isZero)) = true
      · have hstep : parseStructLoop sel iz (f :: rest) u
            = parseStructLoop sel iz rest (u.SetF f.dbName f.value) := by
          simp [parseStructLoop, hid, hadm]
        have hand : sel.Has f.dbName = true ∧ (iz || !f.isZero) = true := by
          simpa using hadm
        rw [hstep, ih]
        constructor
        · rintro (hu | ⟨g, hg, hrest⟩)
          · rcases (HasKey_SetF u f.dbName k f.value).mp hu with hu' | heq
            · exact Or.inl hu'
            · refine Or.inr ⟨f, List.mem_cons_self _ _, heq.symm, ?_, ?_, hand.2⟩
              · rw [heq]; exact hid
              · rw [heq]; exact hand.1
          · exact Or.inr ⟨g, List.mem_cons_of_mem _ hg, hrest⟩
        · rintro (hu | ⟨g, hg, hname, hnid, hsel, hcond⟩)
          · exact Or.inl ((HasKey_SetF u f.dbName k f.value).mpr (Or.inl hu))
          · rcases List.mem_cons.mp hg with hgf | hgr
            · refine Or.inl ((HasKey_SetF u f.dbName k f.value).mpr (Or.inr ?_))
              rw [hgf] at hname
              exact hname.symm
            · exact Or.inr ⟨g, hgr, hname, hnid, hsel, hcond⟩
      · have hstep : parseStructLoop sel iz (f :: rest) u = parseStructLoop sel iz rest u := by
          simp only [parseStructLoop, if_neg hid]
          rw [if_neg (by simpa using hadm)]
        rw [hstep, ih]
        constructor
        · rintro (hu | ⟨g, hg, hrest⟩)
          · exact Or.inl hu
          · exact Or.inr ⟨g, List.mem_cons_of_mem _ hg, hrest⟩
        · rintro (hu | ⟨g, hg, hname, hnid, hsel, hcond⟩)
          · exact Or.inl hu
          · rcases List.mem_cons.mp hg with hgf | hgr
            · refine absurd (show (sel.Has f.dbName && (iz || !f.isZero)) = true from ?_) hadm
              rw [← hgf, hname]
              simp [hsel, hcond]
            · exact Or.inr ⟨g, hgr, hname, hnid, hsel, hcond⟩

/-- C4: for a struct input, a non-primary-key field admitted by the Selector
lands under $set exactly when includeZeroValue is set or its value is
non-zero for its type. -/
theorem C4_update_zero_value (fields : List SField) (sel : Selector) (iz : Bool)
    (soi : Option Doc) (f : SField)
    (hnodup : (fields.map SField.dbName).Nodup)
    (hmem : f ∈ fields) (hpk : f.dbName ≠ "_id") (hadm : sel.Has f.dbName = true) :
    ((parseStruct fields sel iz soi).HasKey "$set" f.dbName = true)
      ↔ ((iz || !f.isZero) = true) := by
  rw [parseStruct_set_eq_loop, parseStructLoop_hasKey]
  constructor
  · rintro (hu | ⟨g, hg, hname, _, _, hcond⟩)
    · exact absurd hu (by simp [Update.HasKey, updGet])
    · have hgf : g = f := List.inj_on_of_nodup_map hnodup hg hmem hname
      subst hgf
      exact hcond
  · intro hc
    exact Or.inr ⟨f, hmem, rfl, hpk, hadm, hc⟩

/-- Witness for C4: a struct with field Lv int64 = 0 omits lv from $set when
includeZeroValue is false and includes it when true. -/
theorem C4_update_zero_value_witness :
    (parseStruct [⟨"_id", .vInt 1, false⟩, ⟨"lv", .vInt 0, true⟩]
      Selector.empty false none).HasKey "$set" "lv" = false ∧
    (parseStruct [⟨"_id", .vInt 1, false⟩, ⟨"lv", .vInt 0, true⟩]
      Selector.empty true none).HasKey "$set" "lv" = true := by
  constructor
  · rfl
  · exact (C4_update_zero_value [⟨"_id", .vInt 1, false⟩, ⟨"lv", .vInt 0, true⟩]
      Selector.empty true none ⟨"lv", .vInt 0, true⟩ (by decide)
      (List.mem_cons_of_mem _ (List.mem_cons_self _ _)) (by decide) rfl).mpr rfl

end Cosmo.update

namespace Cosmo.clause
open Cosmo

theorem anyS_inv (st : BState) (t k : String) (v : BVal) (h : st.aliased = []) :
    (anyS st t k v).pf = st.pf ∧ (anyS st t k v).aliased = [] := by
  unfold anyS
  cases hd : docGet st.f k with
  | none => simp [hd, h]
  | some x => cases x <;> simp [hd, h]

theorem eqS_inv (st : BState) (k : String) (v : BVal) (h : st.aliased = []) :
    (eqS st k v).pf = st.pf ∧ (eqS st k v).aliased = [] := by
  unfold eqS
  cases hd : docGet st.f k with
  | none => simp [hd, h]
  | some x => simpa [hd] using anyS_inv st "$in" k v h

theorem matchS_inv (st : BState) (t : String) (v : BVal) (h : st.aliased = []) :
    (matchS st t v).pf = st.pf ∧ (matchS st t v).aliased = [] := by
  unfold matchS
  cases hd : docGet st.f (update.dollar t) with
  | none => simp [hd, h]
  | some x => simp [hd, h]

theorem buildNodeS_inv (model : Option Schema) (st : BState) (n : Node)
    (h : st.aliased = []) :
    (buildNodeS model st n).pf = st.pf ∧ (buildNodeS model st n).aliased = [] := by
  unfold buildNodeS
  by_cases ht : n.t = "$"
  · simp only [if_pos ht]; exact eqS_inv st _ n.v h
  · simp only [if_neg ht]; exact anyS_inv st n.t _ n.v h

theorem foldl_buildNodeS_inv (model : Option Schema) (nodes : List Node) (st : BState)
    (h : st.aliased = []) :
    (nodes.foldl (fun st n => buildNodeS model st n) st).pf = st.pf ∧
    (nodes.foldl (fun st n => buildNodeS model st n) st).aliased = [] := by
  induction nodes generalizing st with
  | nil => exact ⟨rfl, h⟩
  | cons n rest ih =>
    simp only [List.foldl_cons]
    obtain ⟨h1, h2⟩ := buildNodeS_inv model st n h
    obtain ⟨h3, h4⟩ := ih _ h2
    exact ⟨h3.trans h1, h4⟩

theorem buildComplexS_inv (model : Option Schema) (t : String) (nodes : List Node)
    (st : BState) (h : st.aliased = []) :
    (buildComplexS model t st nodes).pf = st.pf ∧
    (buildComplexS model t st nodes).aliased = [] := by
  induction nodes generalizing st with
  | nil => exact ⟨rfl, h⟩
  | cons n rest ih =>
    simp only [buildComplexS, List.foldl_cons] at *
    obtain ⟨h1, h2⟩ := matchS_inv st t (.vDoc (buildNodeP model n)) h
    obtain ⟨h3, h4⟩ := ih _ h2
    exact ⟨h3.trans h1, h4⟩

theorem buildSteps_inv (q : Query) (model : Option Schema) (st0 : BState)
    (h : st0.aliased = []) :
    (buildSteps q model st0).pf = st0.pf := by
  unfold buildSteps
  obtain ⟨h1, h2⟩ := foldl_buildNodeS_inv model q.qwhere st0 h
  obtain ⟨h3, h4⟩ := buildComplexS_inv model "or" q.cOr _ h2
  obtain ⟨h5, h6⟩ := buildComplexS_inv model "and" q.cAnd _ h4
  obtain ⟨h7, h8⟩ := buildComplexS_inv model "not" q.cNot _ h6
  obtain ⟨h9, _⟩ := buildComplexS_inv model "nor" q.cNor _ h8
  exact h9.trans (h7.trans (h5.trans (h3.trans h1)))

theorem buildInit_pf (q : Query) : (buildInit q).pf = q.filter := by
  cases hf : q.filter <;> simp [buildInit, hf]

theorem buildInit_aliased_nil (q : Query)
    (h : ∀ kv ∈ q.filter.getD [], kv.2.isDoc = false) :
    (buildInit q).aliased = [] := by
  cases hf : q.filter with
  | none => simp [buildInit, hf]
  | some pf =>
    simp only [buildInit, hf, docKeys]
    rw [List.filter_eq_nil_iff.mpr]
    · rfl
    · intro kv hkv
      have := h kv (by rw [hf] at *; simpa using hkv)
      simp [this]

/-- C3 amended: rendering is idempotent and pure whenever every entry of the
pre-merged native filter is a non-document value (in particular when there is
no pre-merged filter at all): the Query is left unchanged by Build and a
second Build yields the same document. With a document-valued pre-merged
entry whose key is also targeted by a condition node the property fails, as
the counterexample shows. -/
theorem C3_amended_idempotent (q : Query) (model : Option Schema)
    (h : ∀ kv ∈ q.filter.getD [], kv.2.isDoc = false) :
    (q.Build model).2 = q ∧ ((q.Build model).2.Build model).1 = (q.Build model).1 := by
  have h2 : (q.Build model).2 = q := by
    show { q with filter := (buildSteps q model (buildInit q)).pf } = q
    rw [buildSteps_inv q model _ (buildInit_aliased_nil q h), buildInit_pf]
  exact ⟨h2, by rw [h2]⟩

end Cosmo.clause

namespace Cosmo.clause
open Cosmo

/-- The length of the $in array stored under key `k` of a filter: a probe
that separates the two renders of the counterexample query. -/
def inArrLenAt (f : Filter) (k : String) : Nat :=
  match docGet f k with
  | some (.vDoc d) =>
    match docGet d "$in" with
    | some (.vArr l) => l.length
    | _ => 0
  | _ => 0

/-- The counterexample query for C3: a pre-merged native filter holding a
document value under key age, and an accumulated equality node on the same
key. -/
def q3ce : Query :=
  { Query.new with
    filter := some [("age", .vDoc [("$gt", .vInt 1)])],
    qwhere := [⟨"$", "age", .vInt 5⟩] }

/-- C3 counterexample: on q3ce the first Build mutates the shared inner
document of the pre-merged filter (the $in bucket the equality-collision
path creates), so the returned Query differs from the input and a second
Build renders a different document ($in holds [5, 5] instead of [5]). -/
theorem C3_counterexample_shared_map :
    (q3ce.Build none).1 ≠ ((q3ce.Build none).2.Build none).1 ∧
    (q3ce.Build none).2 ≠ q3ce := by
  constructor
  · intro h
    exact absurd (congrArg (fun f => inArrLenAt f "age") h) (by decide)
  · intro h
    exact absurd (congrArg (fun qq => inArrLenAt (qq.filter.getD []) "age") h) (by decide)

/-- The witness query for the amended C3: a pre-merged filter whose entries
are all scalars, plus a colliding equality node. -/
def q3w : Query :=
  { Query.new with
    filter := some [("age", .vInt 1)],
    qwhere := [⟨"$", "age", .vInt 5⟩] }

/-- Witness for the amended C3 at q3w. -/
theorem C3_amended_idempotent_witness :
    (q3w.Build none).2 = q3w ∧ ((q3w.Build none).2.Build none).1 = (q3w.Build none).1 :=
  C3_amended_idempotent q3w none (by
    intro kv hkv
    have hkv' : kv ∈ [(("age" : String), BVal.vInt 1)] := hkv
    rw [List.mem_singleton.mp hkv']
    rfl)

end Cosmo.clause
